import Mathlib

/-!
Shallow embedding of `src/GraphQL.py` (class `GraphQLVulnerabilityTester` and
its `main` driver).  JSON values delivered by `response.json()` are modelled by
the inductive type `JVal`; Python dictionary access, truthiness and the
exceptions that dynamic access can raise are modelled explicitly, so that the
partial, exception-interruptible behaviour of `_analyze_schema` and
`test_introspection` is visible in the embedding.
-/

/-- JSON-like values, as produced by `response.json()` in the Python source.
Objects are association lists (Python dicts with unique keys). -/
inductive JVal where
  | null : JVal
  | bool : Bool → JVal
  | num : Int → JVal
  | str : String → JVal
  | arr : List JVal → JVal
  | obj : List (String × JVal) → JVal

/-- Key lookup in an object body, modelling Python `d[k]` / `d.get(k)` on a
dict (keys are unique in a dict, so first match is the value). -/
def lookupKV : List (String × JVal) → String → Option JVal
  | [], _ => none
  | (k, v) :: rest, key => if k = key then some v else lookupKV rest key

/-- Python truthiness of a JSON value: `None`, `False`, `0`, `""`, `[]` and
`\x7b\x7d` are falsy, everything else is truthy. -/
def JVal.truthy : JVal → Bool
  | .null => false
  | .bool b => b
  | .num n => n != 0
  | .str s => s ≠ ""
  | .arr xs => !xs.isEmpty
  | .obj kvs => !kvs.isEmpty

/-- Python `s.startswith(pre)`: the characters of `pre` are a prefix of the
characters of `s`. -/
def pyStartsWith (s pre : String) : Bool :=
  pre.data.isPrefixOf s.data

/-- An entry appended to `self.testable_fields` by `_analyze_schema`:
`\x7b'type_name': type_info['name'], 'field_name': field['name']\x7d`.
The type name is a `String` because `_analyze_schema` has already called
`.startswith` on it; the field name is subscripted without any type check,
so it stays an arbitrary JSON value. -/
structure TestableField where
  type_name : String
  field_name : JVal

/-- The membership test `v in ['OBJECT', 'LIST']` applied to the result of a
Python `dict.get('kind')` (where `none` models Python `None` for a missing
key). Only a string can compare equal to `'OBJECT'` or `'LIST'`. -/
def kindIsObjList : Option JVal → Bool
  | some (.str s) => s == "OBJECT" || s == "LIST"
  | _ => false

/-- The `is_object` expression of `_analyze_schema` (src/GraphQL.py:63-66):

`field_type.get('kind') in ['OBJECT', 'LIST'] or
 (field_type.get('ofType', \x7b\x7d) or \x7b\x7d).get('kind') in ['OBJECT', 'LIST']`

Evaluation is left to right with `or` short-circuiting; calling `.get` on a
non-dict raises `AttributeError`, which the embedding reports as `.error`. -/
def is_object (field_type : JVal) : Except String Bool :=
  match field_type with
  | .obj tkvs =>
    if kindIsObjList (lookupKV tkvs "kind") then .ok true
    else
      let ot := (lookupKV tkvs "ofType").getD (.obj [])
      let ot2 := if ot.truthy then ot else .obj []
      match ot2 with
      | .obj okvs => .ok (kindIsObjList (lookupKV okvs "kind"))
      | _ => .error "AttributeError: get on a non-dict ofType"
  | _ => .error "AttributeError: get on a non-dict field type"

/-- The body of the inner `for field in type_info['fields']` loop of
`_analyze_schema` (src/GraphQL.py:59-72) for a single field.  On success it
returns the updated `testable_fields` list; a raised exception is `.error`.
`field.get('type', \x7b\x7d)` defaults a missing `type` key to an empty dict;
`field['name']` is only evaluated when the field was classified testable and
raises `KeyError` when the key is absent. -/
def processField (type_name : String) (acc : List TestableField) (field : JVal) :
    Except String (List TestableField) :=
  match field with
  | .obj fkvs =>
    let field_type := (lookupKV fkvs "type").getD (.obj [])
    match is_object field_type with
    | .error e => .error e
    | .ok false => .ok acc
    | .ok true =>
      match lookupKV fkvs "name" with
      | some fname => .ok (acc ++ [⟨type_name, fname⟩])
      | none => .error "KeyError: name"
  | _ => .error "AttributeError: get on a non-dict field"

/-- The inner field loop of `_analyze_schema`, threading the accumulated
`testable_fields` list.  When an iteration raises, the entries appended by
the earlier iterations are kept (they were appended to `self.testable_fields`
in place) and the error is reported alongside them. -/
def processFields (type_name : String) : List JVal → List TestableField →
    List TestableField × Option String
  | [], acc => (acc, none)
  | f :: fs, acc =>
    match processField type_name acc f with
    | .ok acc2 => processFields type_name fs acc2
    | .error e => (acc, some e)

/-- One iteration of the outer `for type_info in schema['types']` loop of
`_analyze_schema` (src/GraphQL.py:53-72).  `type_info['name']` raises
`KeyError` when absent and `.startswith` raises `AttributeError` on a
non-string; internal types (name starting with `__`) are skipped;
`type_info.get('fields')` is only iterated when truthy. -/
def analyzeType (acc : List TestableField) (type_info : JVal) :
    List TestableField × Option String :=
  match type_info with
  | .obj kvs =>
    match lookupKV kvs "name" with
    | none => (acc, some "KeyError: name")
    | some (.str name) =>
      if pyStartsWith name "__" then (acc, none)
      else
        match lookupKV kvs "fields" with
        | none => (acc, none)
        | some fv =>
          if fv.truthy then
            match fv with
            | .arr fields => processFields name fields acc
            | _ => (acc, some "TypeError: fields is not iterable as a field list")
          else (acc, none)
    | some _ => (acc, some "AttributeError: startswith on a non-string name")
  | _ => (acc, some "TypeError: type_info is not subscriptable")

/-- The outer type loop of `_analyze_schema` over the `types` array. -/
def analyzeTypes : List JVal → List TestableField → List TestableField × Option String
  | [], acc => (acc, none)
  | t :: ts, acc =>
    match analyzeType acc t with
    | (acc2, none) => analyzeTypes ts acc2
    | (acc2, some e) => (acc2, some e)

/-- `_analyze_schema(schema)` (src/GraphQL.py:49-72): subscripts
`schema['types']` and runs the type loop starting from the (empty)
`self.testable_fields` list. -/
def analyze_schema (schema : JVal) : List TestableField × Option String :=
  match schema with
  | .obj kvs =>
    match lookupKV kvs "types" with
    | none => ([], some "KeyError: types")
    | some (.arr types) => analyzeTypes types []
    | some _ => ([], some "TypeError: types is not iterable as a type list")
  | _ => ([], some "TypeError: schema is not subscriptable")

/-- Python `key in container` for a string key: key membership for a dict,
element membership for a list, substring test for a string, `TypeError` for
the remaining JSON values (`None`, booleans, numbers). -/
def pyContains (container : JVal) (key : String) : Except String Bool :=
  match container with
  | .obj kvs => .ok (lookupKV kvs key).isSome
  | .arr xs => .ok (xs.any (fun v => match v with | .str s => s == key | _ => false))
  | .str s => .ok (decide (key.data <:+: s.data))
  | _ => .error "TypeError: argument of the in operator is not a container"

/-- Observable outcome of `test_introspection` (src/GraphQL.py:19-47):
the returned boolean, the final contents of `self.testable_fields`, and the
message of the exception caught by the `except` clause, if one was raised. -/
structure IntroOutcome where
  enabled : Bool
  fields : List TestableField
  caught : Option String

/-- `test_introspection` (src/GraphQL.py:19-47).  The argument models the
combined outcome of `requests.post` and `response.json()` for the
introspection request: `.error` when either raised.  The body checks
`'data' in result and '__schema' in result['data']` (short-circuiting), runs
`_analyze_schema` on success, and the single `except Exception` trap converts
any raised exception into a `False` return; `self.testable_fields` keeps
whatever was appended before the exception. -/
def test_introspection (resp : Except String JVal) : IntroOutcome :=
  match resp with
  | .error e => ⟨false, [], some e⟩
  | .ok result =>
    match pyContains result "data" with
    | .error e => ⟨false, [], some e⟩
    | .ok false => ⟨false, [], none⟩
    | .ok true =>
      match result with
      | .obj kvs =>
        match lookupKV kvs "data" with
        | none => ⟨false, [], some "KeyError: data"⟩
        | some d =>
          match pyContains d "__schema" with
          | .error e => ⟨false, [], some e⟩
          | .ok false => ⟨false, [], none⟩
          | .ok true =>
            match d with
            | .obj dkvs =>
              match lookupKV dkvs "__schema" with
              | none => ⟨false, [], some "KeyError: __schema"⟩
              | some schema =>
                match analyze_schema schema with
                | (fs, none) => ⟨true, fs, none⟩
                | (fs, some e) => ⟨false, fs, some e⟩
            | _ => ⟨false, [], some "TypeError: data is not subscriptable"⟩
      | _ => ⟨false, [], some "TypeError: result is not subscriptable"⟩

/-- Decimal digits of a positive number, least significant last, with a fuel
argument (`fuel ≥ number of digits` suffices). -/
def decDigitsAux : Nat → Nat → List Char
  | 0, _ => []
  | _ + 1, 0 => []
  | fuel + 1, n + 1 =>
    decDigitsAux fuel ((n + 1) / 10) ++ [Char.ofNat (48 + (n + 1) % 10)]

/-- Python `str(i)` for a natural number: decimal rendering without sign. -/
def natToDec (n : Nat) : String :=
  if n = 0 then "0" else String.mk (decDigitsAux n n)

/-- Python `sep.join(parts)`. -/
def pyJoin (sep : String) : List String → String
  | [] => ""
  | [x] => x
  | x :: y :: xs => x ++ sep ++ pyJoin sep (y :: xs)

/-- Character-list version of `pyJoin`, used to reason about the query
builders at the character level. -/
def pyJoinL (sep : List Char) : List (List Char) → List Char
  | [] => []
  | [x] => x
  | x :: y :: xs => x ++ sep ++ pyJoinL sep (y :: xs)

/-- The query built by `_test_alias_overloading` (src/GraphQL.py:123-127):
`"query \x7b" + " ".join(alias_parts) + "\x7d"` where the part for index `i`
is the f-string `alias_\x7bi\x7d: \x7bfield_name\x7d \x7b\x7b id name \x7d\x7d`. -/
def alias_query (field_name : String) (num_aliases : Nat) : String :=
  "query \x7b" ++
    pyJoin " " ((List.range num_aliases).map
      (fun i => "alias_" ++ natToDec i ++ ": " ++ field_name ++ " \x7b id name \x7d")) ++
  "\x7d"

/-- The query built by `_test_directive_overloading` (src/GraphQL.py:134-138):
`n` copies of `@include(if: true)` joined by single spaces and attached to one
selection of the field with sub-selection `id name`. -/
def directive_query (field_name : String) (num_directives : Nat) : String :=
  "query \x7b " ++ field_name ++ " " ++
    pyJoin " " (List.replicate num_directives "@include(if: true)") ++
  " \x7b id name \x7d \x7d"

/-- The query built by `_test_field_duplication` (src/GraphQL.py:145-149):
one selection of the field whose body is `id name` repeated `n` times,
joined by single spaces. -/
def duplicate_query (field_name : String) (num_duplicates : Nat) : String :=
  "query \x7b " ++ field_name ++ " \x7b " ++
    pyJoin " " (List.replicate num_duplicates "id name") ++
  " \x7d \x7d"

/-- One probe query as issued by `test_overloading_attacks`: the attack kind,
the field name it was built from, and the iteration count it was built with. -/
inductive Probe where
  | alias (field_name : JVal) (n : Nat)
  | directive (field_name : JVal) (n : Nat)
  | duplicate (field_name : JVal) (n : Nat)

/-- `test_overloading_attacks(field_info, num_iterations)`
(src/GraphQL.py:106-121): the three probes for one field, in the order the
three helpers are called. -/
def probesForField (tf : TestableField) (num_iterations : Nat) : List Probe :=
  [.alias tf.field_name num_iterations,
   .directive tf.field_name num_iterations,
   .duplicate tf.field_name num_iterations]

/-- Observable outcome of one run of `main` (src/GraphQL.py:156-174): whether
`test_introspection` returned `True`, the final `self.testable_fields`, and
the probe queries issued by the `for field_info in tester.testable_fields`
loop (empty when introspection was reported disabled). -/
structure RunResult where
  introspectionEnabled : Bool
  fields : List TestableField
  probes : List Probe

/-- `main` (src/GraphQL.py:156-174) after argument parsing: run
`test_introspection`; only when it returned `True`, probe every testable
field with the caller-supplied iteration count (the CLI default is 100). -/
def runMain (resp : Except String JVal) (num_iterations : Nat) : RunResult :=
  let intro := test_introspection resp
  if intro.enabled then
    { introspectionEnabled := true
      fields := intro.fields
      probes := intro.fields.flatMap (fun tf => probesForField tf num_iterations) }
  else
    { introspectionEnabled := false, fields := intro.fields, probes := [] }

/-- Environment outcome of one `requests.post` inside `_send_query`: either
`requests.exceptions.RequestException` was raised (transport failure), or a
response arrived between the two `time.time()` readings, with a raw body and
its JSON parse (`none` when `response.json()` raises `JSONDecodeError`). -/
inductive TransportResult where
  | failure (detail : String)
  | success (startTime endTime : ℚ) (raw : String) (parsed : Option JVal)

/-- `_send_query` (src/GraphQL.py:84-104).  Transport failure returns
`(None, 0, "Request error: <detail>")`; a body that fails to parse returns
`(None, elapsed, "Invalid JSON response: <raw body>")`; success returns
`(parsed, elapsed, None)`, where `elapsed = end_time - start_time`. -/
def send_query (tr : TransportResult) : Option JVal × ℚ × Option String :=
  match tr with
  | .failure detail => (none, 0, some ("Request error: " ++ detail))
  | .success startTime endTime raw parsed =>
    match parsed with
    | some j => (some j, endTime - startTime, none)
    | none => (none, endTime - startTime, some ("Invalid JSON response: " ++ raw))

/-- The probing loop of `main`: each probe in sequence is handed to
`_send_query`, whose result is only printed, never branched on, so the loop
always advances to the next probe.  `env i` models the transport outcome of
the `i`-th HTTP request. -/
def runProbes (probes : List Probe) (env : Nat → TransportResult) :
    List (Probe × (Option JVal × ℚ × Option String)) :=
  probes.enum.map (fun ip => (ip.2, send_query (env ip.1)))

/-- GraphQL introspection type reference (the `TypeRef` fragment of the
introspection query): a kind, an optional name and an optional `ofType`. -/
inductive TypeRef where
  | mk (kind : String) (name : Option String) (ofType : Option TypeRef)

/-- The `kind` component of a type reference. -/
def TypeRef.kind : TypeRef → String
  | .mk k _ _ => k

/-- The `ofType` component of a type reference. -/
def TypeRef.ofType : TypeRef → Option TypeRef
  | .mk _ _ t => t

/-- A well-formed schema field: a name and a type reference. -/
structure SField where
  name : String
  type : TypeRef

/-- A well-formed schema type: a name and an optional field list (the
introspection response carries `fields: null` for scalar types). -/
structure SType where
  name : String
  fields : Option (List SField)

/-- JSON encoding of a type reference, in the shape the introspection
response delivers: an object with `kind`, `name` and `ofType` keys, where a
missing name or `ofType` is carried as JSON `null`. -/
def encodeTypeRef : TypeRef → JVal
  | .mk kind name ofType =>
    .obj [("kind", .str kind),
          ("name", match name with | some s => .str s | none => .null),
          ("ofType", match ofType with | some t => encodeTypeRef t | none => .null)]

/-- JSON encoding of a schema field. -/
def encodeSField (f : SField) : JVal :=
  .obj [("name", .str f.name), ("type", encodeTypeRef f.type)]

/-- JSON encoding of a schema type (`fields: null` when there is no field
list, as the introspection response does for scalars and enums). -/
def encodeSType (t : SType) : JVal :=
  .obj [("name", .str t.name),
        ("fields", match t.fields with
          | some fs => .arr (fs.map encodeSField)
          | none => .null)]

/-- Modelled from the spec: a field is testable iff its type reference has
kind `OBJECT` or `LIST`, or its `ofType` is present and has kind `OBJECT` or
`LIST`; exactly one level of `ofType` unwrapping is inspected. -/
def specTestable (t : TypeRef) : Bool :=
  (t.kind == "OBJECT" || t.kind == "LIST") ||
    (match t.ofType with
     | some u => u.kind == "OBJECT" || u.kind == "LIST"
     | none => false)

/-- Modelled from the spec: the testable fields in encounter order — types in
input order, skipping names that start with the internal marker `__`, then
fields in per-type order, keeping every testable field with no
de-duplication. -/
def specAnalyze (types : List SType) : List TestableField :=
  (types.filter (fun t => !pyStartsWith t.name "__")).flatMap
    (fun t => ((t.fields.getD []).filter (fun f => specTestable f.type)).map
      (fun f => ⟨t.name, .str f.name⟩))

/-- Number of (possibly overlapping) occurrences of `pat` in `s`: the number
of suffix positions of `s` at which `pat` is a prefix. -/
def countOcc (pat : List Char) : List Char → Nat
  | [] => 0
  | c :: rest => (if pat <+: c :: rest then 1 else 0) + countOcc pat rest

/-- Occurrence count at string level. -/
def countOccS (pat s : String) : Nat :=
  countOcc pat.data s.data

/-- Malformed-but-tolerated field entries: an object that has a `name` key,
and whose `type` key is absent or an object whose `ofType` key is absent,
falsy, or an object.  These are exactly the field shapes on which the inner
loop of `_analyze_schema` raises no exception. -/
def laxFieldOK (f : JVal) : Bool :=
  match f with
  | .obj fkvs =>
    (lookupKV fkvs "name").isSome &&
      (match lookupKV fkvs "type" with
       | none => true
       | some (.obj tkvs) =>
         (match lookupKV tkvs "ofType" with
          | none => true
          | some (.obj _) => true
          | some v => !v.truthy)
       | some _ => false)
  | _ => false

/-- Malformed-but-tolerated type entries: an object with a string `name`, and
whose `fields` key is absent, falsy, or a list of tolerated field entries. -/
def laxTypeOK (t : JVal) : Bool :=
  match t with
  | .obj kvs =>
    (match lookupKV kvs "name" with
     | some (.str _) => true
     | _ => false) &&
      (match lookupKV kvs "fields" with
       | none => true
       | some v => !v.truthy ||
          (match v with
           | .arr fs => fs.all laxFieldOK
           | _ => false))
  | _ => false

/-- Whether a JSON body has an object under its `data` key that in turn has a
`__schema` key — the only shape on which `test_introspection` reaches
`_analyze_schema`. -/
def hasDataSchema (b : JVal) : Bool :=
  match b with
  | .obj kvs =>
    match lookupKV kvs "data" with
    | some (.obj dkvs) => (lookupKV dkvs "__schema").isSome
    | _ => false
  | _ => false

/-- The introspection schema of the spec's end-to-end example: one type
`Query` with a single field `users` of kind `OBJECT`. -/
def exampleSchema : JVal :=
  .obj [("types", .arr [
    .obj [("name", .str "Query"),
          ("fields", .arr [
            .obj [("name", .str "users"),
                  ("type", .obj [("kind", .str "OBJECT"), ("name", .str "User"),
                                 ("ofType", .null)])]])]])]

/-- The full introspection response body for `exampleSchema`. -/
def exampleBody : JVal := .obj [("data", .obj [("__schema", exampleSchema)])]

/-- A types array with one normal type and one internal type. -/
def exampleTypesWithInternal : List JVal :=
  [.obj [("name", .str "Query"),
         ("fields", .arr [
           .obj [("name", .str "users"),
                 ("type", .obj [("kind", .str "OBJECT")])]])],
   .obj [("name", .str "__Type"),
         ("fields", .arr [
           .obj [("name", .str "hidden"),
                 ("type", .obj [("kind", .str "OBJECT")])]])]]

/-- A schema whose second type entry is an object with no keys at all: the
analyzer appends `Query.users` from the first entry and then raises
`KeyError` on the second. -/
def examplePartialSchema : JVal :=
  .obj [("types", .arr [
    .obj [("name", .str "Query"),
          ("fields", .arr [
            .obj [("name", .str "users"),
                  ("type", .obj [("kind", .str "OBJECT"), ("name", .str "User"),
                                 ("ofType", .null)])]])],
    .obj []])]

/-- The response body for `examplePartialSchema`. -/
def examplePartialBody : JVal := .obj [("data", .obj [("__schema", examplePartialSchema)])]

/-- Malformed type entries that the analyzer tolerates: a type with no
`fields` key, a field with no `type` key, and a field type with no `ofType`
key. -/
def exampleLaxTypes : List JVal :=
  [.obj [("name", .str "Query")],
   .obj [("name", .str "T"), ("fields", .arr [.obj [("name", .str "f")]])],
   .obj [("name", .str "U"),
         ("fields", .arr [
           .obj [("name", .str "g"),
                 ("type", .obj [("kind", .str "SCALAR")])]])]]

/-- Two probes against the `users` field. -/
def exampleProbes : List Probe :=
  [.alias (.str "users") 100, .directive (.str "users") 100]

/-- A transport environment whose first request fails and whose later
requests succeed. -/
def exampleEnv : Nat → TransportResult
  | 0 => .failure "connection refused"
  | _ + 1 => .success 0 1 "\x7b\x7d" (some (.obj []))

/-! ### Character-level helper lemmas for counting substring occurrences -/

theorem data_append (s t : String) : (s ++ t).data = s.data ++ t.data := rfl

theorem pyJoin_data (sep : String) : ∀ l : List String,
    (pyJoin sep l).data = pyJoinL sep.data (l.map String.data)
  | [] => rfl
  | [x] => rfl
  | x :: y :: xs => by
    simp only [pyJoin, pyJoinL, List.map, data_append, pyJoin_data sep (y :: xs)]

theorem take_pref_mono {p y : List Char} (k : Nat) (h : p <+: y) :
    p.take k <+: y.take k := by
  obtain ⟨t, rfl⟩ := h
  rw [List.take_append_eq_append_take]
  exact List.prefix_append _ _

/-- Splitting an occurrence count at an append boundary: the count is additive
when no occurrence of `pat` can straddle the boundary, i.e. when no splitting
of `pat` into a nonempty proper prefix and the matching remainder has the
prefix as a suffix of `x` and the remainder as a prefix of `y`. -/
theorem countOcc_append_split (pat x y : List Char)
    (hspan : ∀ m, 0 < m → m < pat.length →
      ¬ (pat.take m <:+ x ∧ pat.drop m <+: y)) :
    countOcc pat (x ++ y) = countOcc pat x + countOcc pat y := by
  induction x with
  | nil => simp [countOcc]
  | cons d x2 ih =>
    have hx : countOcc pat (x2 ++ y) = countOcc pat x2 + countOcc pat y := by
      apply ih
      intro m h0 h1 hc
      exact hspan m h0 h1 ⟨hc.1.trans (List.suffix_cons d x2), hc.2⟩
    have hiff : (pat <+: (d :: x2) ++ y) ↔ (pat <+: d :: x2) := by
      constructor
      · intro hp
        by_cases hlen : pat.length ≤ (d :: x2).length
        · rw [List.prefix_iff_eq_take] at hp ⊢
          exact hp.trans (by
            rw [List.take_append_eq_append_take, Nat.sub_eq_zero_of_le hlen,
                List.take_zero, List.append_nil])
        · exfalso
          push_neg at hlen
          have hm0 : 0 < (d :: x2).length := by simp
          apply hspan (d :: x2).length hm0 hlen
          rw [List.prefix_iff_eq_take] at hp
          rw [List.take_append_eq_append_take,
              List.take_of_length_le (le_of_lt hlen)] at hp
          constructor
          · rw [hp, List.take_append_eq_append_take, List.take_length,
                Nat.sub_self, List.take_zero, List.append_nil]
          · rw [hp, List.drop_append_eq_append_drop, List.drop_length,
                Nat.sub_self, List.drop_zero, List.nil_append]
            exact ⟨y.drop (pat.length - (d :: x2).length), List.take_append_drop _ _⟩
      · intro hp
        exact hp.trans (List.prefix_append _ _)
    calc countOcc pat ((d :: x2) ++ y)
        = (if pat <+: (d :: x2) ++ y then 1 else 0) + countOcc pat (x2 ++ y) := by
          rw [List.cons_append]; rfl
      _ = (if pat <+: d :: x2 then 1 else 0) + (countOcc pat x2 + countOcc pat y) := by
          rw [hx]; congr 1; simp only [hiff]
      _ = countOcc pat (d :: x2) + countOcc pat y := by
          show _ = (if pat <+: d :: x2 then 1 else 0) + countOcc pat x2 + countOcc pat y
          omega

/-- Count splitting when no nonempty proper prefix of `pat` is a suffix of
the left block `x` (checkable on concrete `x` and `pat`). -/
theorem countOcc_block_left (pat x y : List Char)
    (hb : ∀ m, m < pat.length → 0 < m → ¬ pat.take m <:+ x) :
    countOcc pat (x ++ y) = countOcc pat x + countOcc pat y :=
  countOcc_append_split pat x y (fun m h0 h1 hc => hb m h1 h0 hc.1)

/-- Count splitting when no nonempty proper remainder of `pat` is a prefix of
the right block `y`. -/
theorem countOcc_append_no_overlap (pat x y : List Char)
    (hd : ∀ m, m < pat.length → 0 < m → ¬ pat.drop m <+: y) :
    countOcc pat (x ++ y) = countOcc pat x + countOcc pat y :=
  countOcc_append_split pat x y (fun m h0 h1 hc => hd m h1 h0 hc.2)

/-- A pattern whose head character does not occur in `x` has no occurrence
inside `x`. -/
theorem countOcc_zero_of_head_notMem (c : Char) (p2 x : List Char) (h : c ∉ x) :
    countOcc (c :: p2) x = 0 := by
  induction x with
  | nil => rfl
  | cons d x2 ih =>
    have hd : ¬ (c :: p2) <+: d :: x2 := by
      intro hp
      rcases List.cons_prefix_cons.mp hp with ⟨rfl, -⟩
      exact h (List.mem_cons_self _ _)
    simp only [countOcc, if_neg hd, Nat.zero_add]
    exact ih (fun hm => h (List.mem_cons_of_mem _ hm))

/-- Stripping a left block that does not contain the pattern's head
character: no occurrence can start inside it. -/
theorem countOcc_append_left_drop (c : Char) (p2 x y : List Char) (h : c ∉ x) :
    countOcc (c :: p2) (x ++ y) = countOcc (c :: p2) y := by
  rw [countOcc_append_split (c :: p2) x y ?_, countOcc_zero_of_head_notMem c p2 x h,
      Nat.zero_add]
  intro m h0 h1 hc
  obtain ⟨hs, -⟩ := hc
  cases m with
  | zero => omega
  | succ k =>
    rw [List.take_succ_cons] at hs
    exact h (hs.subset (List.mem_cons_self _ _))

/-- Stripping one character that cannot begin an occurrence. -/
theorem countOcc_cons_no_match (pat : List Char) (c : Char) (s : List Char)
    (h : ¬ pat <+: c :: s) : countOcc pat (c :: s) = countOcc pat s := by
  simp only [countOcc, if_neg h, Nat.zero_add]

/-- A mismatch of head characters refutes a prefix relation. -/
theorem no_pref_of_head (e : Char) (t : List Char) (d : Char) (z : List Char)
    (hne : e ≠ d) : ¬ (e :: t <+: d :: z) := by
  intro h
  rcases List.cons_prefix_cons.mp h with ⟨rfl, -⟩
  exact hne rfl

/-- Reducing a straddle check to a decidable check on a concrete prefix of
the right block. -/
theorem no_span_concrete (pat y conc : List Char)
    (hconc : y.take (pat.length - 1) = conc)
    (hdec : ∀ m, m < pat.length → 0 < m → ¬ pat.drop m <+: conc) :
    ∀ m, m < pat.length → 0 < m → ¬ pat.drop m <+: y := by
  intro m h1 h0 hp
  apply hdec m h1 h0
  have h2 := take_pref_mono (pat.length - 1) hp
  rwa [hconc, List.take_of_length_le (by rw [List.length_drop]; omega)] at h2

/-- Stripping a left block free of the pattern's head character, stated with
an explicit head decomposition so it can be used by `rw`. -/
theorem countOcc_strip_left (pat x y : List Char) (c : Char) (p2 : List Char)
    (hpat : pat = c :: p2) (h : c ∉ x) :
    countOcc pat (x ++ y) = countOcc pat y := by
  subst hpat; exact countOcc_append_left_drop c p2 x y h


theorem decDigitsAux_digits : ∀ fuel n : Nat, ∀ c ∈ decDigitsAux fuel n, c.isDigit = true
  | 0, _ => by simp [decDigitsAux]
  | fuel + 1, 0 => by simp [decDigitsAux]
  | fuel + 1, n + 1 => by
    intro c hc
    simp only [decDigitsAux, List.mem_append, List.mem_singleton] at hc
    rcases hc with h | rfl
    · exact decDigitsAux_digits fuel _ c h
    · have h10 : (n + 1) % 10 < 10 := Nat.mod_lt _ (by omega)
      have hall : ∀ k < 10, (Char.ofNat (48 + k)).isDigit = true := by decide
      exact hall _ h10

theorem natToDec_digits (n : Nat) : ∀ c ∈ (natToDec n).data, c.isDigit = true := by
  unfold natToDec
  split
  · intro c hc
    simp only [String.data] at hc
    simpa using List.mem_singleton.mp hc ▸ (by decide : ('0').isDigit = true)
  · intro c hc
    exact decDigitsAux_digits n n c hc

theorem alias_part_count (f : String) (hf : countOcc ['a', 'l', 'i', 'a', 's', '_'] f.data = 0)
    (i : Nat) (rest : List Char) :
    countOcc ['a', 'l', 'i', 'a', 's', '_']
      (['a', 'l', 'i', 'a', 's', '_'] ++ ((natToDec i).data ++ ([':', ' '] ++
        (f.data ++ ([' ', '{', ' ', 'i', 'd', ' ', 'n', 'a', 'm', 'e', ' ', '}'] ++ rest)))))
      = 1 + countOcc ['a', 'l', 'i', 'a', 's', '_'] rest := by
  rw [countOcc_block_left ['a', 'l', 'i', 'a', 's', '_'] ['a', 'l', 'i', 'a', 's', '_']
        ((natToDec i).data ++ ([':', ' '] ++
          (f.data ++ ([' ', '{', ' ', 'i', 'd', ' ', 'n', 'a', 'm', 'e', ' ', '}'] ++ rest))))
        (by decide),
      countOcc_append_left_drop 'a' ['l', 'i', 'a', 's', '_'] (natToDec i).data
        ([':', ' '] ++ (f.data ++ ([' ', '{', ' ', 'i', 'd', ' ', 'n', 'a', 'm', 'e', ' ', '}'] ++ rest)))
        (fun hmem => absurd (natToDec_digits i 'a' hmem) (by decide)),
      countOcc_append_left_drop 'a' ['l', 'i', 'a', 's', '_'] [':', ' ']
        (f.data ++ ([' ', '{', ' ', 'i', 'd', ' ', 'n', 'a', 'm', 'e', ' ', '}'] ++ rest))
        (by decide),
      countOcc_append_no_overlap ['a', 'l', 'i', 'a', 's', '_'] f.data
        ([' ', '{', ' ', 'i', 'd', ' ', 'n', 'a', 'm', 'e', ' ', '}'] ++ rest)
        (no_span_concrete ['a', 'l', 'i', 'a', 's', '_']
          ([' ', '{', ' ', 'i', 'd', ' ', 'n', 'a', 'm', 'e', ' ', '}'] ++ rest)
          [' ', '{', ' ', 'i', 'd']
          (by rw [List.take_append_of_le_length (by decide)]; decide) (by decide)),
      hf,
      countOcc_block_left ['a', 'l', 'i', 'a', 's', '_']
        [' ', '{', ' ', 'i', 'd', ' ', 'n', 'a', 'm', 'e', ' ', '}'] rest (by decide)]
  simp [show countOcc ['a', 'l', 'i', 'a', 's', '_'] ['a', 'l', 'i', 'a', 's', '_'] = 1 from by decide,
        show countOcc ['a', 'l', 'i', 'a', 's', '_'] [' ', '{', ' ', 'i', 'd', ' ', 'n', 'a', 'm', 'e', ' ', '}'] = 0
          from by decide]

theorem alias_join_count (f : String) (hf : countOcc ['a', 'l', 'i', 'a', 's', '_'] f.data = 0) :
    ∀ is : List Nat,
      countOcc ['a', 'l', 'i', 'a', 's', '_']
        (pyJoinL [' '] (is.map (fun i =>
          ("alias_" ++ natToDec i ++ ": " ++ f ++ " \x7b id name \x7d").data)) ++ ['\x7d'])
        = is.length
  | [] => by
    simp only [List.map_nil, pyJoinL, List.nil_append]
    decide
  | [i] => by
    simp only [List.map_cons, List.map_nil, pyJoinL, data_append, List.append_assoc]
    rw [alias_part_count f hf i,
        show countOcc ['a', 'l', 'i', 'a', 's', '_'] ['\x7d'] = 0 from by decide]
    rfl
  | i :: j :: is => by
    simp only [List.map_cons, pyJoinL, data_append, List.append_assoc]
    rw [alias_part_count f hf i, List.singleton_append,
        countOcc_cons_no_match _ _ _ (no_pref_of_head 'a' _ ' ' _ (by decide))]
    have ih := alias_join_count f hf (j :: is)
    simp only [List.map_cons, data_append, List.append_assoc] at ih
    rw [ih]
    simp only [List.length_cons]
    omega

theorem alias_query_count1 (f : String) (n : Nat)
    (hf : countOcc ['a', 'l', 'i', 'a', 's', '_'] f.data = 0) :
    countOccS "alias_" (alias_query f n) = n := by
  unfold countOccS alias_query
  simp only [data_append, pyJoin_data, List.map_map, Function.comp_def, List.append_assoc]
  rw [countOcc_append_left_drop 'a' ['l', 'i', 'a', 's', '_'] ['q', 'u', 'e', 'r', 'y', ' ', '\x7b'] _ (by decide)]
  have aj := alias_join_count f hf (List.range n)
  simp only [data_append, List.append_assoc] at aj
  rw [aj]
  exact List.length_range n

theorem pyJoinL_head (sep x tail : List Char) (xs : List (List Char)) :
    ∃ U, pyJoinL sep (x :: xs) ++ tail = x ++ U := by
  cases xs with
  | nil => exact ⟨tail, rfl⟩
  | cons b bs => exact ⟨sep ++ (pyJoinL sep (b :: bs) ++ tail), by simp [pyJoinL, List.append_assoc]⟩

theorem alias_part2_count (f : String)
    (hf : countOcc ['\x7b', ' ', 'i', 'd', ' ', 'n', 'a', 'm', 'e', ' ', '\x7d'] f.data = 0)
    (i : Nat) (rest : List Char) :
    countOcc ['\x7b', ' ', 'i', 'd', ' ', 'n', 'a', 'm', 'e', ' ', '\x7d']
      (['a', 'l', 'i', 'a', 's', '_'] ++ ((natToDec i).data ++ ([':', ' '] ++
        (f.data ++ ([' ', '\x7b', ' ', 'i', 'd', ' ', 'n', 'a', 'm', 'e', ' ', '\x7d'] ++ rest)))))
      = 1 + countOcc ['\x7b', ' ', 'i', 'd', ' ', 'n', 'a', 'm', 'e', ' ', '\x7d'] rest := by
  rw [countOcc_append_left_drop '\x7b' _ ['a', 'l', 'i', 'a', 's', '_'] _ (by decide),
      countOcc_append_left_drop '\x7b' _ (natToDec i).data _
        (fun hmem => absurd (natToDec_digits i '\x7b' hmem) (by decide)),
      countOcc_append_left_drop '\x7b' _ [':', ' '] _ (by decide),
      countOcc_append_no_overlap ['\x7b', ' ', 'i', 'd', ' ', 'n', 'a', 'm', 'e', ' ', '\x7d'] f.data
        ([' ', '\x7b', ' ', 'i', 'd', ' ', 'n', 'a', 'm', 'e', ' ', '\x7d'] ++ rest)
        (no_span_concrete ['\x7b', ' ', 'i', 'd', ' ', 'n', 'a', 'm', 'e', ' ', '\x7d']
          ([' ', '\x7b', ' ', 'i', 'd', ' ', 'n', 'a', 'm', 'e', ' ', '\x7d'] ++ rest)
          [' ', '\x7b', ' ', 'i', 'd', ' ', 'n', 'a', 'm', 'e']
          (by rw [List.take_append_of_le_length (by decide)]; decide) (by decide)),
      hf, List.cons_append,
      countOcc_cons_no_match _ _ _ (no_pref_of_head '\x7b' _ ' ' _ (by decide)),
      countOcc_block_left ['\x7b', ' ', 'i', 'd', ' ', 'n', 'a', 'm', 'e', ' ', '\x7d']
        ['\x7b', ' ', 'i', 'd', ' ', 'n', 'a', 'm', 'e', ' ', '\x7d'] rest (by decide)]
  simp [show countOcc ['\x7b', ' ', 'i', 'd', ' ', 'n', 'a', 'm', 'e', ' ', '\x7d']
          ['\x7b', ' ', 'i', 'd', ' ', 'n', 'a', 'm', 'e', ' ', '\x7d'] = 1 from by decide]

theorem alias_join2_count (f : String)
    (hf : countOcc ['\x7b', ' ', 'i', 'd', ' ', 'n', 'a', 'm', 'e', ' ', '\x7d'] f.data = 0) :
    ∀ is : List Nat,
      countOcc ['\x7b', ' ', 'i', 'd', ' ', 'n', 'a', 'm', 'e', ' ', '\x7d']
        (pyJoinL [' '] (is.map (fun i =>
          ("alias_" ++ natToDec i ++ ": " ++ f ++ " \x7b id name \x7d").data)) ++ ['\x7d'])
        = is.length
  | [] => by
    simp only [List.map_nil, pyJoinL, List.nil_append]
    decide
  | [i] => by
    simp only [List.map_cons, List.map_nil, pyJoinL, data_append, List.append_assoc]
    rw [alias_part2_count f hf i,
        show countOcc ['\x7b', ' ', 'i', 'd', ' ', 'n', 'a', 'm', 'e', ' ', '\x7d'] ['\x7d'] = 0
          from by decide]
    rfl
  | i :: j :: is => by
    simp only [List.map_cons, pyJoinL, data_append, List.append_assoc]
    rw [alias_part2_count f hf i, List.singleton_append,
        countOcc_cons_no_match _ _ _ (no_pref_of_head '\x7b' _ ' ' _ (by decide))]
    have ih := alias_join2_count f hf (j :: is)
    simp only [List.map_cons, data_append, List.append_assoc] at ih
    rw [ih]
    simp only [List.length_cons]
    omega

theorem alias_query_count2 (f : String) (n : Nat) (hn : 0 < n)
    (hf : countOcc ['\x7b', ' ', 'i', 'd', ' ', 'n', 'a', 'm', 'e', ' ', '\x7d'] f.data = 0) :
    countOccS "\x7b id name \x7d" (alias_query f n) = n := by
  obtain ⟨m, rfl⟩ : ∃ m, n = m + 1 := ⟨n - 1, by omega⟩
  unfold countOccS alias_query
  simp only [data_append, pyJoin_data, List.map_map, Function.comp_def, List.append_assoc]
  rw [show (['q', 'u', 'e', 'r', 'y', ' ', '\x7b'] : List Char)
        = ['q', 'u', 'e', 'r', 'y', ' '] ++ ['\x7b'] from rfl,
      List.append_assoc,
      countOcc_append_left_drop '\x7b' _ ['q', 'u', 'e', 'r', 'y', ' '] _ (by decide),
      List.singleton_append, List.range_succ_eq_map]
  simp only [List.map_cons]
  obtain ⟨U, hU⟩ := pyJoinL_head [' ']
    (['a', 'l', 'i', 'a', 's', '_'] ++
      ((natToDec 0).data ++
        ([':', ' '] ++ (f.data ++ [' ', '\x7b', ' ', 'i', 'd', ' ', 'n', 'a', 'm', 'e', ' ', '\x7d']))))
    ['\x7d']
    (List.map
      (fun x =>
        ['a', 'l', 'i', 'a', 's', '_'] ++
          ((natToDec x).data ++
            ([':', ' '] ++ (f.data ++ [' ', '\x7b', ' ', 'i', 'd', ' ', 'n', 'a', 'm', 'e', ' ', '\x7d']))))
      (List.map Nat.succ (List.range m)))
  rw [countOcc_cons_no_match _ _ _ (by
    rw [hU]
    intro hp
    rcases List.cons_prefix_cons.mp hp with ⟨-, h3⟩
    rw [List.append_assoc] at h3
    exact no_pref_of_head ' ' _ 'a' _ (by decide) h3)]
  have hj := alias_join2_count f hf (List.range (m + 1))
  rw [List.range_succ_eq_map] at hj
  simp only [List.map_cons, data_append, List.append_assoc] at hj
  rw [hj]
  simp [List.length_map, List.length_range]

theorem directive_join_count : ∀ m : Nat,
    countOcc ['@', 'i', 'n', 'c', 'l', 'u', 'd', 'e', '(', 'i', 'f', ':', ' ', 't', 'r', 'u', 'e', ')']
      (pyJoinL [' ']
        (List.replicate (m + 1)
          ['@', 'i', 'n', 'c', 'l', 'u', 'd', 'e', '(', 'i', 'f', ':', ' ', 't', 'r', 'u', 'e', ')']) ++
        [' ', '\x7b', ' ', 'i', 'd', ' ', 'n', 'a', 'm', 'e', ' ', '\x7d', ' ', '\x7d'])
      = m + 1
  | 0 => by decide
  | m + 1 => by
    rw [List.replicate_succ, List.replicate_succ]
    simp only [pyJoinL, List.append_assoc]
    rw [countOcc_block_left
          ['@', 'i', 'n', 'c', 'l', 'u', 'd', 'e', '(', 'i', 'f', ':', ' ', 't', 'r', 'u', 'e', ')']
          ['@', 'i', 'n', 'c', 'l', 'u', 'd', 'e', '(', 'i', 'f', ':', ' ', 't', 'r', 'u', 'e', ')']
          _ (by decide),
        List.singleton_append,
        countOcc_cons_no_match _ _ _ (no_pref_of_head '@' _ ' ' _ (by decide))]
    have ih := directive_join_count m
    rw [List.replicate_succ] at ih
    rw [ih, show countOcc
          ['@', 'i', 'n', 'c', 'l', 'u', 'd', 'e', '(', 'i', 'f', ':', ' ', 't', 'r', 'u', 'e', ')']
          ['@', 'i', 'n', 'c', 'l', 'u', 'd', 'e', '(', 'i', 'f', ':', ' ', 't', 'r', 'u', 'e', ')'] = 1
          from by decide]
    omega

theorem directive_query_count (f : String) (n : Nat) (hn : 0 < n)
    (hf : countOcc ['@', 'i', 'n', 'c', 'l', 'u', 'd', 'e', '(', 'i', 'f', ':', ' ', 't', 'r', 'u', 'e', ')']
            f.data = 0) :
    countOccS "@include(if: true)" (directive_query f n) = n := by
  obtain ⟨m, rfl⟩ : ∃ m, n = m + 1 := ⟨n - 1, by omega⟩
  unfold countOccS directive_query
  simp only [data_append, pyJoin_data, List.map_replicate, List.append_assoc]
  rw [List.replicate_succ]
  obtain ⟨U, hU⟩ := pyJoinL_head [' ']
    ['@', 'i', 'n', 'c', 'l', 'u', 'd', 'e', '(', 'i', 'f', ':', ' ', 't', 'r', 'u', 'e', ')']
    [' ', '\x7b', ' ', 'i', 'd', ' ', 'n', 'a', 'm', 'e', ' ', '\x7d', ' ', '\x7d']
    (List.replicate m ['@', 'i', 'n', 'c', 'l', 'u', 'd', 'e', '(', 'i', 'f', ':', ' ', 't', 'r', 'u', 'e', ')'])
  rw [hU, List.singleton_append]
  have hspan : ∀ mm, mm < 18 →
      0 < mm →
      ¬ (['@', 'i', 'n', 'c', 'l', 'u', 'd', 'e', '(', 'i', 'f', ':', ' ', 't', 'r', 'u', 'e', ')'] : List Char).drop mm <+:
        ' ' :: (['@', 'i', 'n', 'c', 'l', 'u', 'd', 'e', '(', 'i', 'f', ':', ' ', 't', 'r', 'u', 'e', ')'] ++ U) := by
    intro mm h1 h0
    interval_cases mm <;> first
      | exact no_pref_of_head _ _ _ _ (by decide)
      | (intro hp
         rcases List.cons_prefix_cons.mp hp with ⟨-, h3⟩
         have h4 := take_pref_mono 5 h3
         rw [List.take_append_of_le_length (by decide)] at h4
         exact absurd h4 (by decide))
  rw [countOcc_append_left_drop '@' _ ['q', 'u', 'e', 'r', 'y', ' ', '\x7b', ' '] _ (by decide),
      countOcc_append_no_overlap
        ['@', 'i', 'n', 'c', 'l', 'u', 'd', 'e', '(', 'i', 'f', ':', ' ', 't', 'r', 'u', 'e', ')'] f.data
        (' ' :: (['@', 'i', 'n', 'c', 'l', 'u', 'd', 'e', '(', 'i', 'f', ':', ' ', 't', 'r', 'u', 'e', ')'] ++ U))
        hspan, hf,
      countOcc_cons_no_match _ _ _ (no_pref_of_head '@' _ ' ' _ (by decide))]
  have hj := directive_join_count m
  rw [List.replicate_succ] at hj
  rw [hU] at hj
  rw [hj]
  omega

theorem duplicate_join_count : ∀ m : Nat,
    countOcc ['i', 'd', ' ', 'n', 'a', 'm', 'e']
      (pyJoinL [' '] (List.replicate (m + 1) ['i', 'd', ' ', 'n', 'a', 'm', 'e']) ++
        [' ', '\x7d', ' ', '\x7d'])
      = m + 1
  | 0 => by decide
  | m + 1 => by
    rw [List.replicate_succ, List.replicate_succ]
    simp only [pyJoinL, List.append_assoc]
    rw [countOcc_block_left ['i', 'd', ' ', 'n', 'a', 'm', 'e'] ['i', 'd', ' ', 'n', 'a', 'm', 'e']
          _ (by decide),
        List.singleton_append,
        countOcc_cons_no_match _ _ _ (no_pref_of_head 'i' _ ' ' _ (by decide))]
    have ih := duplicate_join_count m
    rw [List.replicate_succ] at ih
    rw [ih, show countOcc ['i', 'd', ' ', 'n', 'a', 'm', 'e'] ['i', 'd', ' ', 'n', 'a', 'm', 'e'] = 1
          from by decide]
    omega

theorem duplicate_query_count (f : String) (n : Nat) (hn : 0 < n)
    (hf : countOcc ['i', 'd', ' ', 'n', 'a', 'm', 'e'] f.data = 0) :
    countOccS "id name" (duplicate_query f n) = n := by
  obtain ⟨m, rfl⟩ : ∃ m, n = m + 1 := ⟨n - 1, by omega⟩
  unfold countOccS duplicate_query
  simp only [data_append, pyJoin_data, List.map_replicate, List.append_assoc]
  rw [List.replicate_succ]
  obtain ⟨U, hU⟩ := pyJoinL_head [' '] ['i', 'd', ' ', 'n', 'a', 'm', 'e']
    [' ', '\x7d', ' ', '\x7d'] (List.replicate m ['i', 'd', ' ', 'n', 'a', 'm', 'e'])
  rw [hU]
  have hspan : ∀ mm, mm < 7 → 0 < mm →
      ¬ (['i', 'd', ' ', 'n', 'a', 'm', 'e'] : List Char).drop mm <+:
        [' ', '\x7b', ' '] ++ (['i', 'd', ' ', 'n', 'a', 'm', 'e'] ++ U) := by
    intro mm h1 h0
    interval_cases mm <;> first
      | exact no_pref_of_head _ _ _ _ (by decide)
      | (intro hp
         rcases List.cons_prefix_cons.mp hp with ⟨-, h3⟩
         exact no_pref_of_head 'n' _ '\x7b' _ (by decide) h3)
  rw [countOcc_append_left_drop 'i' _ ['q', 'u', 'e', 'r', 'y', ' ', '\x7b', ' '] _ (by decide),
      countOcc_append_no_overlap ['i', 'd', ' ', 'n', 'a', 'm', 'e'] f.data
        ([' ', '\x7b', ' '] ++ (['i', 'd', ' ', 'n', 'a', 'm', 'e'] ++ U))
        hspan, hf,
      countOcc_append_left_drop 'i' _ [' ', '\x7b', ' '] _ (by decide)]
  have hj := duplicate_join_count m
  rw [List.replicate_succ] at hj
  rw [hU] at hj
  rw [hj]
  omega

/-! ### Analyzer refinement on well-formed introspection data -/

theorem encodeTypeRef_eq (k : String) (nm : Option String) (ot : Option TypeRef) :
    encodeTypeRef (.mk k nm ot) =
      .obj [("kind", .str k),
            ("name", match nm with | some s => .str s | none => .null),
            ("ofType", match ot with | some t => encodeTypeRef t | none => .null)] := by
  cases ot <;> rfl

theorem is_object_encode (t : TypeRef) : is_object (encodeTypeRef t) = .ok (specTestable t) := by
  obtain ⟨kind, name, ofType⟩ := t
  cases ofType with
  | none =>
    by_cases hk : (kind == "OBJECT" || kind == "LIST") = true
    · simp [is_object, encodeTypeRef, specTestable, kindIsObjList, lookupKV,
        TypeRef.kind, TypeRef.ofType, hk]
    · simp [is_object, encodeTypeRef, specTestable, kindIsObjList, lookupKV,
        TypeRef.kind, TypeRef.ofType, hk, JVal.truthy]
  | some u =>
    obtain ⟨ukind, uname, uot⟩ := u
    by_cases hk : (kind == "OBJECT" || kind == "LIST") = true
    · simp [is_object, encodeTypeRef, specTestable, kindIsObjList, lookupKV,
        TypeRef.kind, TypeRef.ofType, hk]
    · simp only [encodeTypeRef_eq]
      simp [is_object, specTestable, kindIsObjList, lookupKV,
        TypeRef.kind, TypeRef.ofType, hk, JVal.truthy]

theorem processField_encode (tn : String) (acc : List TestableField) (f : SField) :
    processField tn acc (encodeSField f)
      = .ok (if specTestable f.type then acc ++ [⟨tn, .str f.name⟩] else acc) := by
  cases hb : specTestable f.type <;>
    simp [processField, encodeSField, lookupKV, is_object_encode, hb]

theorem processFields_encode (tn : String) (fs : List SField) (acc : List TestableField) :
    processFields tn (fs.map encodeSField) acc
      = (acc ++ (fs.filter (fun f => specTestable f.type)).map
          (fun f => ⟨tn, .str f.name⟩), none) := by
  induction fs generalizing acc with
  | nil => simp [processFields]
  | cons f fs ih =>
    simp only [List.map_cons, processFields, processField_encode, List.filter_cons]
    cases hb : specTestable f.type with
    | true => simp [hb, ih, List.append_assoc]
    | false => simp [hb, ih]

theorem processFields_encode_cons (tn : String) (f : SField) (fs : List SField)
    (acc : List TestableField) :
    processFields tn (encodeSField f :: fs.map encodeSField) acc
      = (acc ++ ((f :: fs).filter (fun x => specTestable x.type)).map
          (fun x => ⟨tn, .str x.name⟩), none) := by
  rw [← List.map_cons]
  exact processFields_encode tn (f :: fs) acc

theorem analyzeType_encode (acc : List TestableField) (t : SType) :
    analyzeType acc (encodeSType t)
      = (acc ++ (if pyStartsWith t.name "__" then []
            else ((t.fields.getD []).filter (fun f => specTestable f.type)).map
              (fun f => ⟨t.name, .str f.name⟩)), none) := by
  by_cases hs : pyStartsWith t.name "__" = true
  · simp [analyzeType, encodeSType, lookupKV, hs]
  · cases hf : t.fields with
    | none => simp [analyzeType, encodeSType, lookupKV, hs, hf, JVal.truthy]
    | some fs =>
      cases fs with
      | nil => simp [analyzeType, encodeSType, lookupKV, hs, hf, JVal.truthy, processFields]
      | cons f fs2 =>
        simp [analyzeType, encodeSType, lookupKV, hs, hf, JVal.truthy,
          processFields_encode_cons]

theorem analyzeTypes_encode (types : List SType) (acc : List TestableField) :
    analyzeTypes (types.map encodeSType) acc = (acc ++ specAnalyze types, none) := by
  induction types generalizing acc with
  | nil => simp [analyzeTypes, specAnalyze]
  | cons t ts ih =>
    simp only [List.map_cons, analyzeTypes, analyzeType_encode]
    rw [ih]
    by_cases hs : pyStartsWith t.name "__" = true
    · simp [specAnalyze, List.filter_cons, hs]
    · simp [specAnalyze, List.filter_cons, hs, List.append_assoc]

/-! ### The analyzer never emits a field under an internal type name -/

theorem processField_shape (tn : String) (acc : List TestableField) (f : JVal)
    (acc2 : List TestableField) (h : processField tn acc f = .ok acc2) :
    acc2 = acc ∨ ∃ v, acc2 = acc ++ [⟨tn, v⟩] := by
  cases f with
  | obj fkvs =>
    simp only [processField] at h
    cases hio : is_object ((lookupKV fkvs "type").getD (.obj [])) with
    | error e => rw [hio] at h; simp at h
    | ok b =>
      rw [hio] at h
      cases b with
      | false => injection h with h2; exact .inl h2.symm
      | true =>
        cases hname : lookupKV fkvs "name" with
        | some v => rw [hname] at h; injection h with h2; exact .inr ⟨v, h2.symm⟩
        | none => rw [hname] at h; simp at h
  | null => simp [processField] at h
  | bool b => simp [processField] at h
  | num m => simp [processField] at h
  | str s => simp [processField] at h
  | arr xs => simp [processField] at h

theorem processFields_inv (tn : String) (fs : List JVal) (acc : List TestableField)
    (hacc : ∀ tf ∈ acc, pyStartsWith tf.type_name "__" = false)
    (htn : pyStartsWith tn "__" = false) :
    ∀ tf ∈ (processFields tn fs acc).1, pyStartsWith tf.type_name "__" = false := by
  induction fs generalizing acc with
  | nil => simpa [processFields] using hacc
  | cons f fs ih =>
    simp only [processFields]
    cases hpf : processField tn acc f with
    | ok acc2 =>
      apply ih acc2
      intro tf htf
      rcases processField_shape tn acc f acc2 hpf with rfl | ⟨v, rfl⟩
      · exact hacc tf htf
      · rcases List.mem_append.mp htf with hm | hm
        · exact hacc tf hm
        · rcases List.mem_singleton.mp hm with rfl
          exact htn
    | error e => simpa using hacc

theorem analyzeType_inv (acc : List TestableField) (t : JVal)
    (hacc : ∀ tf ∈ acc, pyStartsWith tf.type_name "__" = false) :
    ∀ tf ∈ (analyzeType acc t).1, pyStartsWith tf.type_name "__" = false := by
  cases t with
  | obj kvs =>
    cases hname : lookupKV kvs "name" with
    | none => simp only [analyzeType, hname]; simpa using hacc
    | some v =>
      cases v <;> try (simp only [analyzeType, hname]; simpa using hacc)
      next name =>
        by_cases hguard : pyStartsWith name "__" = true
        · simp only [analyzeType, hname, hguard, if_true]
          simpa using hacc
        · cases hfields : lookupKV kvs "fields" with
          | none =>
            simp only [analyzeType, hname, if_neg hguard, hfields]
            simpa using hacc
          | some fv =>
            by_cases htr : fv.truthy = true
            · cases fv <;>
                try (simp only [analyzeType, hname, if_neg hguard, hfields, htr, if_true]
                     simpa using hacc)
              next fields =>
                simp only [analyzeType, hname, if_neg hguard, hfields, htr, if_true]
                exact processFields_inv name fields acc hacc (by simpa using hguard)
            · simp only [analyzeType, hname, if_neg hguard, hfields, if_neg htr]
              simpa using hacc
  | null => simp only [analyzeType]; simpa using hacc
  | bool b => simp only [analyzeType]; simpa using hacc
  | num m => simp only [analyzeType]; simpa using hacc
  | str s => simp only [analyzeType]; simpa using hacc
  | arr xs => simp only [analyzeType]; simpa using hacc

theorem analyzeTypes_inv (types : List JVal) (acc : List TestableField)
    (hacc : ∀ tf ∈ acc, pyStartsWith tf.type_name "__" = false) :
    ∀ tf ∈ (analyzeTypes types acc).1, pyStartsWith tf.type_name "__" = false := by
  induction types generalizing acc with
  | nil => simpa [analyzeTypes] using hacc
  | cons t ts ih =>
    simp only [analyzeTypes]
    cases hat : analyzeType acc t with
    | mk acc2 e =>
      cases e with
      | none =>
        exact ih acc2 (by simpa [hat] using analyzeType_inv acc t hacc)
      | some msg =>
        simpa [hat] using analyzeType_inv acc t hacc

/-! ### No exception on tolerated malformed entries -/

theorem processField_lax (tn : String) (acc : List TestableField) (f : JVal)
    (h : laxFieldOK f = true) : ∃ acc2, processField tn acc f = .ok acc2 := by
  cases f with
  | obj fkvs =>
    simp only [laxFieldOK, Bool.and_eq_true] at h
    obtain ⟨hname, htype⟩ := h
    have hio : ∃ b, is_object ((lookupKV fkvs "type").getD (.obj [])) = .ok b := by
      cases htk : lookupKV fkvs "type" with
      | none => exact ⟨false, rfl⟩
      | some tv =>
        rw [htk] at htype
        cases tv <;> simp at htype
        next tkvs =>
          simp only [Option.getD]
          by_cases hk : kindIsObjList (lookupKV tkvs "kind") = true
          · exact ⟨true, by simp [is_object, hk]⟩
          · cases hot : lookupKV tkvs "ofType" with
            | none => exact ⟨false, by simp [is_object, hk, hot, JVal.truthy]; decide⟩
            | some ov =>
              rw [hot] at htype
              cases ov with
              | obj okvs =>
                by_cases htr : (JVal.obj okvs).truthy = true
                · exact ⟨kindIsObjList (lookupKV okvs "kind"), by simp [is_object, hk, hot, htr]⟩
                · exact ⟨false, by simp [is_object, hk, hot, htr]; decide⟩
              | null =>
                exact ⟨false, by simp [is_object, hk, hot, JVal.truthy]; decide⟩
              | bool b =>
                have hs : b = false := by simpa [JVal.truthy] using htype
                exact ⟨false, by simp [is_object, hk, hot, JVal.truthy, hs]; decide⟩
              | num m =>
                have hs : m = 0 := by simpa [JVal.truthy] using htype
                exact ⟨false, by simp [is_object, hk, hot, JVal.truthy, hs]; decide⟩
              | str s =>
                have hs : s = "" := by simpa [JVal.truthy] using htype
                exact ⟨false, by simp [is_object, hk, hot, JVal.truthy, hs]; decide⟩
              | arr xs =>
                have hs : xs = [] := by simpa [JVal.truthy] using htype
                exact ⟨false, by simp [is_object, hk, hot, JVal.truthy, hs]; decide⟩
    obtain ⟨b, hb⟩ := hio
    cases b with
    | false => exact ⟨acc, by simp [processField, hb]⟩
    | true =>
      obtain ⟨v, hv⟩ := Option.isSome_iff_exists.mp hname
      exact ⟨acc ++ [⟨tn, v⟩], by simp [processField, hb, hv]⟩
  | null => simp [laxFieldOK] at h
  | bool b => simp [laxFieldOK] at h
  | num m => simp [laxFieldOK] at h
  | str s => simp [laxFieldOK] at h
  | arr xs => simp [laxFieldOK] at h

theorem processFields_lax (tn : String) (fs : List JVal)
    (h : fs.all laxFieldOK = true) (acc : List TestableField) :
    (processFields tn fs acc).2 = none := by
  induction fs generalizing acc with
  | nil => simp [processFields]
  | cons f fs ih =>
    simp only [List.all_cons, Bool.and_eq_true] at h
    obtain ⟨acc2, ha⟩ := processField_lax tn acc f h.1
    simp only [processFields, ha]
    exact ih h.2 acc2

theorem analyzeType_lax (acc : List TestableField) (t : JVal)
    (h : laxTypeOK t = true) : (analyzeType acc t).2 = none := by
  cases t with
  | obj kvs =>
    simp only [laxTypeOK, Bool.and_eq_true] at h
    obtain ⟨hname, hfields⟩ := h
    cases hn : lookupKV kvs "name" with
    | none => rw [hn] at hname; simp at hname
    | some v =>
      rw [hn] at hname
      cases v <;> simp at hname
      next name =>
        by_cases hguard : pyStartsWith name "__" = true
        · simp [analyzeType, hn, hguard]
        · cases hf : lookupKV kvs "fields" with
          | none => simp [analyzeType, hn, if_neg hguard, hf]
          | some fv =>
            rw [hf] at hfields
            by_cases htr : fv.truthy = true
            · rw [Bool.or_eq_true] at hfields
              rcases hfields with hfalse | hmatch
              · rw [htr] at hfalse; simp at hfalse
              · cases fv <;> simp at hmatch
                next fields =>
                  simp only [analyzeType, hn, if_neg hguard, hf, htr, if_true]
                  exact processFields_lax name fields (List.all_eq_true.mpr hmatch) acc
            · simp [analyzeType, hn, if_neg hguard, hf, if_neg htr]
  | null => simp [laxTypeOK] at h
  | bool b => simp [laxTypeOK] at h
  | num m => simp [laxTypeOK] at h
  | str s => simp [laxTypeOK] at h
  | arr xs => simp [laxTypeOK] at h

theorem analyzeTypes_lax (types : List JVal) (h : types.all laxTypeOK = true)
    (acc : List TestableField) : (analyzeTypes types acc).2 = none := by
  induction types generalizing acc with
  | nil => simp [analyzeTypes]
  | cons t ts ih =>
    simp only [List.all_cons, Bool.and_eq_true] at h
    have h2 := analyzeType_lax acc t h.1
    cases hat : analyzeType acc t with
    | mk acc2 e =>
      rw [hat] at h2
      simp only at h2
      subst h2
      simp only [analyzeTypes, hat]
      exact ih h.2 acc2

/-! ### Orchestration lemmas -/

theorem test_introspection_not_schema (b : JVal) (h : hasDataSchema b = false) :
    (test_introspection (.ok b)).enabled = false ∧ (test_introspection (.ok b)).fields = [] := by
  cases b with
  | obj kvs =>
    cases hd : lookupKV kvs "data" with
    | none => simp [test_introspection, pyContains, hd]
    | some d =>
      cases d with
      | obj dkvs =>
        have hs : lookupKV dkvs "__schema" = none := by
          simp only [hasDataSchema, hd] at h
          exact Option.not_isSome_iff_eq_none.mp (by simpa using h)
        simp [test_introspection, pyContains, hd, hs]
      | null => simp [test_introspection, pyContains, hd]
      | bool bb => simp [test_introspection, pyContains, hd]
      | num m => simp [test_introspection, pyContains, hd]
      | str s =>
        cases hin : decide ("__schema".data <:+: s.data) <;>
          simp [test_introspection, pyContains, hd, hin]
      | arr xs =>
        cases han : xs.any (fun v => match v with | .str s => s == "__schema" | _ => false) <;>
          simp [test_introspection, pyContains, hd, han]
  | null => simp [test_introspection, pyContains]
  | bool bb => simp [test_introspection, pyContains]
  | num m => simp [test_introspection, pyContains]
  | str s =>
    cases hin : decide ("data".data <:+: s.data) <;>
      simp [test_introspection, pyContains, hin]
  | arr xs =>
    cases han : xs.any (fun v => match v with | .str s => s == "data" | _ => false) <;>
      simp [test_introspection, pyContains, han]

theorem flatMap_probes_length (l : List TestableField) (n : Nat) :
    (l.flatMap (fun tf => probesForField tf n)).length = 3 * l.length := by
  induction l with
  | nil => rfl
  | cons tf l ih =>
    rw [show (tf :: l).flatMap (fun tf => probesForField tf n)
          = probesForField tf n ++ l.flatMap (fun tf => probesForField tf n) from rfl,
        List.length_append, ih]
    simp [probesForField]
    omega

theorem flatMap_probes_get (l : List TestableField) (n : Nat) :
    ∀ (i : Nat) (tf : TestableField), l[i]? = some tf →
      (l.flatMap (fun tf => probesForField tf n))[3 * i]? = some (.alias tf.field_name n) ∧
      (l.flatMap (fun tf => probesForField tf n))[3 * i + 1]? = some (.directive tf.field_name n) ∧
      (l.flatMap (fun tf => probesForField tf n))[3 * i + 2]? = some (.duplicate tf.field_name n) := by
  induction l with
  | nil => intro i tf h; simp at h
  | cons hd l ih =>
    intro i tf h
    cases i with
    | zero =>
      simp only [List.getElem?_cons_zero, Option.some.injEq] at h
      subst h
      simp [probesForField]
    | succ j =>
      simp only [List.getElem?_cons_succ] at h
      have := ih j tf h
      have h3 : ((hd :: l).flatMap (fun tf => probesForField tf n))
          = probesForField hd n ++ l.flatMap (fun tf => probesForField tf n) := rfl
      rw [h3]
      have hlen : (probesForField hd n).length = 3 := rfl
      refine ⟨?_, ?_, ?_⟩
      · rw [List.getElem?_append_right (by rw [hlen]; omega)]
        rw [hlen, show 3 * (j + 1) - 3 = 3 * j from by omega]
        exact this.1
      · rw [List.getElem?_append_right (by rw [hlen]; omega)]
        rw [hlen, show 3 * (j + 1) + 1 - 3 = 3 * j + 1 from by omega]
        exact this.2.1
      · rw [List.getElem?_append_right (by rw [hlen]; omega)]
        rw [hlen, show 3 * (j + 1) + 2 - 3 = 3 * j + 2 from by omega]
        exact this.2.2

theorem test_introspection_caught_disabled (resp : Except String JVal)
    (h : (test_introspection resp).caught.isSome = true) :
    (test_introspection resp).enabled = false := by
  unfold test_introspection at h ⊢
  repeat' split
  all_goals (first | rfl | (simp_all))

/-! ### Claim theorems -/

/-- C1: for every field type reference of an introspection response, the
analyzer classifies the field as testable iff the reference's kind is OBJECT
or LIST, or its `ofType` is present with kind OBJECT or LIST; exactly one
level of `ofType` unwrapping is inspected (`specTestable` looks one level
deep by construction), so deeper wrapping never contributes. -/
theorem C1_testable_classification (t : TypeRef) :
    is_object (encodeTypeRef t) = Except.ok (specTestable t) :=
  is_object_encode t

/-- C2 counterexample: the claim that entries missing a `name` key raise no
exception is false — a type entry with no keys at all makes the analyzer
raise `KeyError: name` (caught upstream by `test_introspection`). -/
theorem C2_missing_name_raises :
    (analyzeTypes [JVal.obj []] []).2 = some "KeyError: name" ∧
    (analyzeTypes [JVal.obj []] []).2 ≠ none :=
  ⟨rfl, by decide⟩

/-- C2 (amended): the analyzer raises no error on malformed entries whose
missing keys are the tolerated ones — a missing `fields` key is treated as
no fields, a missing `type` key as an empty object, and a missing (or falsy)
`ofType` as an empty object; a type entry missing its `name` key, however,
raises `KeyError`. -/
theorem C2_tolerated_malformed (types : List JVal)
    (h : types.all laxTypeOK = true) :
    (analyzeTypes types []).2 = none :=
  analyzeTypes_lax types h []

theorem C2_tolerated_malformed_witness :
    (exampleLaxTypes.all laxTypeOK = true) ∧ (analyzeTypes exampleLaxTypes []).2 = none :=
  ⟨rfl, C2_tolerated_malformed exampleLaxTypes rfl⟩

/-- C3: for every input types array, no entry of the analyzer's
testable-field output carries a type name that starts with the internal
marker `__`. -/
theorem C3_internal_types_excluded (types : List JVal) (tf : TestableField)
    (h : tf ∈ (analyzeTypes types []).1) :
    pyStartsWith tf.type_name "__" = false :=
  analyzeTypes_inv types [] (by simp) tf h

theorem C3_internal_types_excluded_witness :
    pyStartsWith (TestableField.mk "Query" (.str "users")).type_name "__" = false :=
  C3_internal_types_excluded exampleTypesWithInternal ⟨"Query", .str "users"⟩
    (by rw [show (analyzeTypes exampleTypesWithInternal []).1
          = [⟨"Query", .str "users"⟩] from rfl]
        exact List.mem_singleton.mpr rfl)

/-- C4: on every well-formed types array the analyzer's output is exactly
the testable fields in encounter order — types in input order, then fields
in per-type order — with no de-duplication (the output is a flat map, so two
same-named fields on different types both appear), and no error. -/
theorem C4_output_order (types : List SType) :
    analyzeTypes (types.map encodeSType) [] = (specAnalyze types, none) := by
  simpa using analyzeTypes_encode types []

/-- C5 counterexample: as stated the claim is false for every field name —
for the field named `alias_0` the ALIAS query contains 2 occurrences of
`alias_`, not exactly 1. -/
theorem C5_alias_collision :
    countOccS "alias_" (alias_query "alias_0" 1) = 2 ∧
    countOccS "alias_" (alias_query "alias_0" 1) ≠ 1 :=
  ⟨by decide, by decide⟩

/-- C5 (amended): for every field name that does not itself contain the
counted pattern and every n > 0, the ALIAS query contains exactly n
occurrences of `alias_` and exactly n occurrences of `\x7b id name \x7d`,
the DIRECTIVE query exactly n occurrences of `@include(if: true)`, and the
DUPLICATE query exactly n occurrences of `id name`. -/
theorem C5_builder_counts (f : String) (n : Nat) (hn : 0 < n)
    (h1 : countOccS "alias_" f = 0)
    (h2 : countOccS "\x7b id name \x7d" f = 0)
    (h3 : countOccS "@include(if: true)" f = 0)
    (h4 : countOccS "id name" f = 0) :
    countOccS "alias_" (alias_query f n) = n ∧
    countOccS "\x7b id name \x7d" (alias_query f n) = n ∧
    countOccS "@include(if: true)" (directive_query f n) = n ∧
    countOccS "id name" (duplicate_query f n) = n :=
  ⟨alias_query_count1 f n h1, alias_query_count2 f n hn h2,
   directive_query_count f n hn h3, duplicate_query_count f n hn h4⟩

theorem C5_builder_counts_witness :
    0 < 3 ∧
    (countOccS "alias_" (alias_query "user" 3) = 3 ∧
     countOccS "\x7b id name \x7d" (alias_query "user" 3) = 3 ∧
     countOccS "@include(if: true)" (directive_query "user" 3) = 3 ∧
     countOccS "id name" (duplicate_query "user" 3) = 3) :=
  ⟨by decide,
   C5_builder_counts "user" 3 (by decide) (by decide) (by decide) (by decide) (by decide)⟩

/-- C6: for every response body lacking `data.__schema`, the run reports
introspection disabled, the testable-field list stays empty and no probe is
built or sent. -/
theorem C6_no_schema_disabled (b : JVal) (n : Nat) (h : hasDataSchema b = false) :
    runMain (.ok b) n = ⟨false, [], []⟩ := by
  obtain ⟨he, hf⟩ := test_introspection_not_schema b h
  simp [runMain, he, hf]

theorem C6_no_schema_disabled_witness :
    hasDataSchema (JVal.obj []) = false ∧
    runMain (.ok (JVal.obj [])) 100 = ⟨false, [], []⟩ :=
  ⟨rfl, C6_no_schema_disabled (JVal.obj []) 100 rfl⟩

/-- C7: `_send_query` returns exactly one of three outcomes — transport
failure gives `(none, 0, "Request error: <detail>")`, an unparseable body
gives `(none, elapsed, "Invalid JSON response: <raw>")`, success gives
`(parsed, elapsed, none)` — and, being a total function of the transport
outcome, it never raises. -/
theorem C7_send_outcomes (tr : TransportResult) :
    (∃ d, tr = .failure d ∧
      send_query tr = (none, 0, some ("Request error: " ++ d))) ∨
    (∃ t0 t1 raw, tr = .success t0 t1 raw none ∧
      send_query tr = (none, t1 - t0, some ("Invalid JSON response: " ++ raw))) ∨
    (∃ t0 t1 raw j, tr = .success t0 t1 raw (some j) ∧
      send_query tr = (some j, t1 - t0, none)) := by
  cases tr with
  | failure d => exact .inl ⟨d, rfl, rfl⟩
  | success t0 t1 raw parsed =>
    cases parsed with
    | none => exact .inr (.inl ⟨t0, t1, raw, rfl, rfl⟩)
    | some j => exact .inr (.inr ⟨t0, t1, raw, j, rfl, rfl⟩)

/-- C8: when introspection is enabled, the probes issued are exactly three
per testable field, in discovery order, each triple in the fixed order
ALIAS, DIRECTIVE, DUPLICATE, built with the caller-supplied iteration
count; no probe is retried or aggregated. -/
theorem C8_three_probes_per_field (resp : Except String JVal) (n : Nat)
    (h : (test_introspection resp).enabled = true) :
    (runMain resp n).probes
      = (runMain resp n).fields.flatMap (fun tf => probesForField tf n) ∧
    (runMain resp n).probes.length = 3 * (runMain resp n).fields.length ∧
    (∀ i tf, (runMain resp n).fields[i]? = some tf →
      (runMain resp n).probes[3 * i]? = some (.alias tf.field_name n) ∧
      (runMain resp n).probes[3 * i + 1]? = some (.directive tf.field_name n) ∧
      (runMain resp n).probes[3 * i + 2]? = some (.duplicate tf.field_name n)) := by
  have hmain : runMain resp n
      = ⟨true, (test_introspection resp).fields,
         (test_introspection resp).fields.flatMap (fun tf => probesForField tf n)⟩ := by
    simp [runMain, h]
  rw [hmain]
  exact ⟨rfl, flatMap_probes_length _ n, fun i tf hi => flatMap_probes_get _ n i tf hi⟩

theorem C8_three_probes_per_field_witness :
    (test_introspection (.ok exampleBody)).enabled = true ∧
    (runMain (.ok exampleBody) 100).fields = [⟨"Query", .str "users"⟩] ∧
    (runMain (.ok exampleBody) 100).probes.length = 3 ∧
    (runMain (.ok exampleBody) 100).probes[0]? = some (.alias (.str "users") 100) ∧
    (runMain (.ok exampleBody) 100).probes[1]? = some (.directive (.str "users") 100) ∧
    (runMain (.ok exampleBody) 100).probes[2]? = some (.duplicate (.str "users") 100) := by
  have h := C8_three_probes_per_field (.ok exampleBody) 100 rfl
  have h0 := h.2.2 0 ⟨"Query", .str "users"⟩ rfl
  exact ⟨rfl, rfl, by rw [h.2.1]; rfl, h0.1, h0.2.1, h0.2.2⟩

/-- C9: a transport failure on one probe never aborts the run — every probe
in the sequence is attempted regardless of the environment, and a failing
probe's outcome is the converted error message. -/
theorem C9_failure_does_not_abort (probes : List Probe) (env : Nat → TransportResult) :
    (runProbes probes env).map Prod.fst = probes ∧
    ∀ i d, env i = .failure d →
      (runProbes probes env)[i]?
        = (probes[i]?).map (fun p => (p, (none, 0, some ("Request error: " ++ d)))) := by
  constructor
  · simp [runProbes, List.map_map, Function.comp_def, List.enum_map_snd]
  · intro i d hd
    simp [runProbes, List.getElem?_map, List.getElem?_enum, Function.comp_def, hd, send_query]

theorem C9_failure_does_not_abort_witness :
    (runProbes exampleProbes exampleEnv).map Prod.fst = exampleProbes ∧
    (runProbes exampleProbes exampleEnv)[0]?
      = some (Probe.alias (.str "users") 100,
          (none, 0, some "Request error: connection refused")) := by
  have h := C9_failure_does_not_abort exampleProbes exampleEnv
  exact ⟨h.1, by rw [h.2 0 "connection refused" rfl]; rfl⟩

/-- C10: whenever an exception is raised anywhere inside the introspection
step, the single trap catches it, the function returns False, the
orchestrator issues no probes, and the fields appended before the exception
remain in the list. -/
theorem C10_exception_trap (resp : Except String JVal) (n : Nat)
    (h : (test_introspection resp).caught.isSome = true) :
    (runMain resp n).introspectionEnabled = false ∧
    (runMain resp n).probes = [] ∧
    (runMain resp n).fields = (test_introspection resp).fields := by
  have he := test_introspection_caught_disabled resp h
  simp [runMain, he]

theorem C10_exception_trap_witness :
    (test_introspection (.ok examplePartialBody)).caught.isSome = true ∧
    (runMain (.ok examplePartialBody) 100).introspectionEnabled = false ∧
    (runMain (.ok examplePartialBody) 100).probes = [] ∧
    (runMain (.ok examplePartialBody) 100).fields = [⟨"Query", .str "users"⟩] := by
  have h := C10_exception_trap (.ok examplePartialBody) 100 rfl
  exact ⟨rfl, h.1, h.2.1, h.2.2.trans rfl⟩
